import Mathlib

/-!
# Verification of the siyuan-ai-companion core against its specification

This development shallowly embeds the core of the `siyuan_ai_companion`
Python package (the RAG driver, the indexing task, and the OpenAI proxy
view helpers) into Lean 4 and proves, or refutes, the quantified
invariants stated in the project specification.

Conventions of the embedding:
* Python strings are modelled as `List Char` (`Str` below); Python byte
  strings as `List Nat` with every element below 256.
* Python exceptions are modelled by the `PyErr` type together with
  `Except PyErr` result values.
* External collaborators (the Qdrant client, the sentence-transformer
  embedder, the tiktoken/huggingface tokenizers and the markdown-it
  parser) are modelled at their interface, either from the specification
  (where noted) or as universally quantified function parameters.
-/

namespace SiyuanCompanion

/-- Python `str` values are modelled as lists of characters. -/
abbrev Str := List Char

/-- Python substring test (`needle in hay` on `str`). -/
def inStr (needle hay : Str) : Bool :=
  decide (needle <:+: hay)

/-- The characters stripped by Python `str.strip()` (ASCII whitespace). -/
def isPySpace (c : Char) : Bool :=
  c = ' ' ∨ c = '\t' ∨ c = '\n' ∨ c = '\x0d' ∨ c = '\x0b' ∨ c = '\x0c'

/-- Python `str.strip()`: remove whitespace from both ends. -/
def strip (s : Str) : Str :=
  ((s.dropWhile isPySpace).reverse.dropWhile isPySpace).reverse

/-- Python `'sep'.join(parts)` specialised to an arbitrary separator. -/
def joinSep (sep : Str) : List Str → Str
  | [] => []
  | [x] => x
  | x :: xs => x ++ sep ++ joinSep sep xs

/-- The two-character paragraph separator `"\n\n"`. -/
def nl2 : Str := ['\n', '\n']

/-- Worker for `splitNl2`: `cur` holds the characters of the pending part
in reverse order. -/
def splitNl2Aux : Str → Str → List Str
  | [], cur => [cur.reverse]
  | '\n' :: '\n' :: rest, cur => cur.reverse :: splitNl2Aux rest []
  | c :: rest, cur => splitNl2Aux rest (c :: cur)

/-- Python `document.split('\n\n')`: split on each non-overlapping
occurrence of a blank line, keeping empty parts. -/
def splitNl2 (s : Str) : List Str :=
  splitNl2Aux s []

/-- Worker for `pySplitSpace`; `cur` is the pending field reversed. -/
def pySplitSpaceAux : Str → Str → List Str
  | [], cur => [cur.reverse]
  | c :: rest, cur =>
    if c = ' ' then cur.reverse :: pySplitSpaceAux rest []
    else pySplitSpaceAux rest (c :: cur)

/-- Python `s.split(' ')`: split on every single space, keeping empty
fields. -/
def pySplitSpace (s : Str) : List Str :=
  pySplitSpaceAux s []

/-- Python exceptions relevant to the embedded code. -/
inductive PyErr where
  | keyError : PyErr
  | indexError : PyErr
  | valueError : PyErr
  | siyuanApiError : PyErr
  | ragDriverError : Str → PyErr
  | handlerError : Str → Nat → PyErr
deriving DecidableEq

/-! ## MD5 (`hashlib.md5`), as used by `RagDriver._hash_id`

`RagDriver._hash_id` (model/rag_driver.py, lines 132-139) computes
`int.from_bytes(hashlib.md5(note_id.encode()).digest()[:8], 'big')`.
`hashlib.md5` implements RFC 1321; the algorithm is reproduced here over
`List Nat` byte strings with arithmetic modulo `2^32`.  Its correctness
is checked below against the RFC 1321 test vectors. -/

/-- The 64 MD5 sine-derived round constants `⌊|sin(i+1)|·2^32⌋`. -/
def md5K : List Nat :=
  [3614090360, 3905402710, 606105819, 3250441966, 4118548399, 1200080426,
   2821735955, 4249261313, 1770035416, 2336552879, 4294925233, 2304563134,
   1804603682, 4254626195, 2792965006, 1236535329, 4129170786, 3225465664,
   643717713, 3921069994, 3593408605, 38016083, 3634488961, 3889429448,
   568446438, 3275163606, 4107603335, 1163531501, 2850285829, 4243563512,
   1735328473, 2368359562, 4294588738, 2272392833, 1839030562, 4259657740,
   2763975236, 1272893353, 4139469664, 3200236656, 681279174, 3936430074,
   3572445317, 76029189, 3654602809, 3873151461, 530742520, 3299628645,
   4096336452, 1126891415, 2878612391, 4237533241, 1700485571, 2399980690,
   4293915773, 2240044497, 1873313359, 4264355552, 2734768916, 1309151649,
   4149444226, 3174756917, 718787259, 3951481745]

/-- The 64 MD5 per-round left-rotation amounts. -/
def md5S : List Nat :=
  [7, 12, 17, 22, 7, 12, 17, 22, 7, 12, 17, 22, 7, 12, 17, 22,
   5, 9, 14, 20, 5, 9, 14, 20, 5, 9, 14, 20, 5, 9, 14, 20,
   4, 11, 16, 23, 4, 11, 16, 23, 4, 11, 16, 23, 4, 11, 16, 23,
   6, 10, 15, 21, 6, 10, 15, 21, 6, 10, 15, 21, 6, 10, 15, 21]

/-- 32-bit truncation. -/
def u32 (x : Nat) : Nat := x % 4294967296

/-- 32-bit bitwise complement (for values below `2^32`). -/
def bnot32 (x : Nat) : Nat := Nat.xor x 4294967295

/-- 32-bit left rotation by `n` places (for `x < 2^32`, `n ≤ 32`). -/
def rotl32 (x n : Nat) : Nat :=
  (x * 2 ^ n) % 4294967296 + x / 2 ^ (32 - n)

/-- Little-endian interpretation of a byte string as a natural number. -/
def leBytesToNat (l : List Nat) : Nat :=
  l.foldr (fun b acc => b + 256 * acc) 0

/-- The `n` little-endian bytes of `x`. -/
def leBytes (n x : Nat) : List Nat :=
  (List.range n).map (fun i => x / 256 ^ i % 256)

/-- Big-endian interpretation of a byte string as a natural number
(Python `int.from_bytes(bytes, 'big')`). -/
def beBytesToNat (l : List Nat) : Nat :=
  l.foldl (fun acc b => acc * 256 + b) 0

/-- MD5 round function and message-word index for round `i`. -/
def md5FG (i b c d : Nat) : Nat × Nat :=
  if i < 16 then (Nat.lor (Nat.land b c) (Nat.land (bnot32 b) d), i)
  else if i < 32 then (Nat.lor (Nat.land d b) (Nat.land (bnot32 d) c), (5 * i + 1) % 16)
  else if i < 48 then (Nat.xor (Nat.xor b c) d, (3 * i + 5) % 16)
  else (Nat.xor c (Nat.lor b (bnot32 d)), (7 * i) % 16)

/-- One MD5 round: update the running state `(a, b, c, d)` at round `i`
using the 16 message words `m`. -/
def md5Round (m : List Nat) (st : Nat × Nat × Nat × Nat) (i : Nat) :
    Nat × Nat × Nat × Nat :=
  let (a, b, c, d) := st
  let (f, g) := md5FG i b c d
  let f2 := u32 (f + a + md5K.getD i 0 + m.getD g 0)
  (d, u32 (b + rotl32 f2 (md5S.getD i 0)), b, c)

/-- The 16 little-endian 32-bit words of a 64-byte chunk. -/
def md5ChunkWords (chunk : List Nat) : List Nat :=
  (List.range 16).map (fun i => leBytesToNat ((chunk.drop (4 * i)).take 4))

/-- Process one 64-byte chunk into the MD5 state. -/
def md5Chunk (st : Nat × Nat × Nat × Nat) (chunk : List Nat) :
    Nat × Nat × Nat × Nat :=
  let m := md5ChunkWords chunk
  let r := (List.range 64).foldl (md5Round m) st
  (u32 (st.1 + r.1), u32 (st.2.1 + r.2.1), u32 (st.2.2.1 + r.2.2.1),
   u32 (st.2.2.2 + r.2.2.2))

/-- MD5 padding: a `0x80` byte, zeros to 56 mod 64, then the bit length
as 8 little-endian bytes. -/
def md5Pad (msg : List Nat) : List Nat :=
  let z := (119 - msg.length % 64) % 64
  msg ++ [128] ++ List.replicate z 0 ++ leBytes 8 (8 * msg.length % 2 ^ 64)

/-- Worker for `chunks64`: the first argument is a fuel bounded below by
the list length, so the recursion is structural and kernel-reducible. -/
def chunks64Go : Nat → List Nat → List (List Nat)
  | 0, _ => []
  | _ + 1, [] => []
  | n + 1, b :: rest => (b :: rest).take 64 :: chunks64Go n ((b :: rest).drop 64)

/-- Split a byte string into 64-byte chunks. -/
def chunks64 (l : List Nat) : List (List Nat) :=
  chunks64Go l.length l

/-- The 16-byte MD5 digest of a byte string. -/
def md5Bytes (msg : List Nat) : List Nat :=
  let st0 : Nat × Nat × Nat × Nat :=
    (1732584193, 4023233417, 2562383102, 271733878)
  let r := (chunks64 (md5Pad msg)).foldl md5Chunk st0
  leBytes 4 r.1 ++ leBytes 4 r.2.1 ++ leBytes 4 r.2.2.1 ++ leBytes 4 r.2.2.2

/-- UTF-8 encoding of one character (Python `str.encode()`). -/
def utf8Char (c : Char) : List Nat :=
  let n := c.toNat
  if n < 128 then [n]
  else if n < 2048 then [192 + n / 64, 128 + n % 64]
  else if n < 65536 then [224 + n / 4096, 128 + n / 64 % 64, 128 + n % 64]
  else [240 + n / 262144, 128 + n / 4096 % 64, 128 + n / 64 % 64, 128 + n % 64]

/-- UTF-8 encoding of a string (Python `str.encode()`). -/
def utf8 (s : Str) : List Nat :=
  (s.map utf8Char).flatten

/-- `RagDriver._hash_id` (model/rag_driver.py, lines 132-139):
`int.from_bytes(hashlib.md5(note_id.encode()).digest()[:8], 'big')`. -/
def hash_id (note_id : Str) : Nat :=
  beBytesToNat ((md5Bytes (utf8 note_id)).take 8)

/-! ## Vector store and `RagDriver.add_block`

The Qdrant client is an external collaborator; the collection is
modelled from the spec (§4.2): a list of points where `upsert` is
"atomic with respect to each point id; replaces any prior point with the
same id".  The embedder (`SentenceTransformer.encode`) is modelled as an
arbitrary function parameter `embed` into an arbitrary vector type. -/

/-- The payload stored with each indexed point
(`rag_driver.add_block`, lines 365-369). -/
structure Payload where
  blockId : Str
  documentId : Str
  content : Str
deriving DecidableEq

/-- A point in the vector store: numeric id, embedding vector, payload. -/
structure Point (V : Type) where
  id : Nat
  vector : V
  payload : Payload

/-- Modelled from the spec (§4.2 Vector Store Adapter): upserting one
point replaces any prior point with the same id. -/
def upsertOne {V : Type} (store : List (Point V)) (p : Point V) :
    List (Point V) :=
  store.filter (fun q => q.id ≠ p.id) ++ [p]

/-- Modelled from the spec (§4.2): batched upsert, point by point. -/
def upsert {V : Type} (store : List (Point V)) (ps : List (Point V)) :
    List (Point V) :=
  ps.foldl upsertOne store

/-- `RagDriver.add_block` (model/rag_driver.py, lines 344-377): embed the
block content, build the point with id `hash_id block_id` and the
`{blockId, documentId, content}` payload, and upsert it. -/
def add_block {V : Type} (embed : Str → V) (store : List (Point V))
    (block_id document_id block_content : Str) : List (Point V) :=
  let vector := embed block_content
  let point : Point V :=
    ⟨hash_id block_id, vector, ⟨block_id, document_id, block_content⟩⟩
  upsert store [point]

/-! ## The indexing sweep (`tasks.update_index`)

`update_index` (tasks.py, lines 12-53) reads the `last_update` cursor
file (`FileNotFoundError` → 0), fetches the blocks updated since then,
and — only when at least one block was returned — batch-upserts them and
rewrites the cursor file with the wall-clock time captured before the
fetch.  The outcomes of the two external calls are inputs of the model;
the only `try/except` in the source is the one around the cursor read. -/

/-- A row returned by `SiyuanApi.get_blocks_by_time`: the fields of the
block dict read by `update_index` (tasks.py, lines 36-41). -/
structure SiyuanBlock where
  id : Str
  content : Str
  root_id : Str
deriving DecidableEq

/-- Decidable equality for `Except` results. -/
instance {ε α : Type} [DecidableEq ε] [DecidableEq α] :
    DecidableEq (Except ε α) := fun a b =>
  match a, b with
  | .error e, .error f =>
    if h : e = f then .isTrue (by rw [h]) else .isFalse (by simp [h])
  | .ok x, .ok y =>
    if h : x = y then .isTrue (by rw [h]) else .isFalse (by simp [h])
  | .error _, .ok _ => .isFalse (by simp)
  | .ok _, .error _ => .isFalse (by simp)

/-- The environment of one indexing sweep. -/
structure SweepEnv where
  /-- Parsed contents of the `last_update` file; `none` = file absent. -/
  cursorFile : Option Nat
  /-- Outcome of `siyuan.get_blocks_by_time` for this sweep's window. -/
  fetchResult : Except PyErr (List SiyuanBlock)
  /-- Outcome of `rag_driver.update_blocks` (embedding + batched upsert),
  were it to be called. -/
  upsertResult : Except PyErr Unit
  /-- `current_time` (tasks.py line 26): wall-clock time captured after
  reading the cursor and before the block fetch. -/
  now : Nat
deriving DecidableEq

/-- Observable outcome of one sweep. -/
structure SweepOutcome where
  /-- Contents of the `last_update` file after the sweep. -/
  cursorFile : Option Nat
  /-- Whether `rag_driver.update_blocks` was invoked. -/
  upsertCalled : Bool
  /-- Normal return, or the exception propagated to the caller. -/
  result : Except PyErr Unit
deriving DecidableEq

/-- `update_index` (tasks.py, lines 12-53). -/
def update_index (env : SweepEnv) : SweepOutcome :=
  -- try: open('last_update') ... except FileNotFoundError: last_update = 0
  let _last_update : Nat := env.cursorFile.getD 0
  match env.fetchResult with
  | .error e => ⟨env.cursorFile, false, .error e⟩
  | .ok blocks =>
    let updated_content := blocks.map (fun b => (b.id, b.content, b.root_id))
    if updated_content.isEmpty then
      ⟨env.cursorFile, false, .ok ()⟩
    else
      match env.upsertResult with
      | .error e => ⟨env.cursorFile, true, .error e⟩
      | .ok _ => ⟨some env.now, true, .ok ()⟩

/-! ## The RAG chat-completion handler (`views/openai.py`)

`v1_chat_completion_rag` (views/openai.py, lines 22-61) selects a user
message as the query, rewrites it through `RagDriver.build_prompt`
(modelled as a function parameter `bp`), and splices the rewritten
prompt back into the message list before forwarding.  Only the
message-list transformation is modelled; the upstream forward is outside
this claim. -/

/-- One chat message of the request payload. -/
structure ChatMessage where
  role : Str
  content : Str
deriving DecidableEq

/-- Lines 30, 40-43: `user_message = ''`, then the loop takes the content
of the **first** message whose role is `'user'` and breaks. -/
def first_user_message (messages : List ChatMessage) : Str :=
  match messages.find? (fun m => m.role = "user".data) with
  | some m => m.content
  | none => []

/-- Worker for `replace_last_user`: replace the content of the first
user-role message of a (already reversed) list. -/
def replace_first_user (new_prompt : Str) :
    List ChatMessage → List ChatMessage
  | [] => []
  | m :: rest =>
    if m.role = "user".data then ⟨m.role, new_prompt⟩ :: rest
    else m :: replace_first_user new_prompt rest

/-- Lines 55-58: walk `reversed(range(len(messages)))`, replace the
content of the first user-role message found (i.e. the last one), and
break. -/
def replace_last_user (messages : List ChatMessage) (new_prompt : Str) :
    List ChatMessage :=
  (replace_first_user new_prompt messages.reverse).reverse

/-- `v1_chat_completion_rag` (views/openai.py, lines 22-61), restricted
to the message-list transformation; `bp` stands for
`RagDriver.build_prompt`. -/
def v1_chat_completion_rag (bp : Str → Str) (messages : List ChatMessage) :
    Except PyErr (List ChatMessage) :=
  let user_message := first_user_message messages
  if user_message.isEmpty then
    .error (.handlerError "No user message provided".data 400)
  else
    .ok (replace_last_user messages (bp user_message))

/-! ## The companion auth gate (`views/utils.py`, `token_required`) -/

/-- Outcome of the `token_required` wrapper for one request. -/
inductive AuthOutcome where
  /-- The wrapped handler runs (the request passes the gate). -/
  | pass : AuthOutcome
  /-- `jsonify({'error': ...}), 401`. -/
  | unauthorized : AuthOutcome
  /-- `token_header.split(' ')[1]` raised `IndexError`. -/
  | indexError : AuthOutcome
deriving DecidableEq

/-- `token_required` (views/utils.py, lines 72-91): `companion_token` is
the configured token (`None` = auth disabled), `auth_header` the value of
the request's `Authorization` header (`none` = header absent). -/
def token_required (companion_token : Option Str) (auth_header : Option Str) :
    AuthOutcome :=
  match companion_token with
  | none => .pass
  | some tok =>
    match auth_header with
    | none => .unauthorized
    | some h =>
      if h.isEmpty then .unauthorized   -- `if not token_header`
      else
        match (pySplitSpace h).get? 1 with
        | none => .indexError           -- `split(' ')[1]` out of range
        | some second =>
          if second ≠ tok then .unauthorized else .pass

/-! ## Upstream forwarding (`views/utils.py`, `forward_request`)

Only the header transformation (lines 38-44) is modelled: the caller's
headers are copied, then the `Authorization` entry is replaced by the
configured upstream bearer token, or popped (werkzeug `Headers.pop`
raises `KeyError` when the header is absent) when no token is
configured. -/

/-- A header multimap, as a list of (name, value) pairs. -/
abbrev Headers := List (Str × Str)

/-- The `Authorization` header name. -/
def AUTH : Str := "Authorization".data

/-- First value of a header, if present (werkzeug `Headers.get`). -/
def getHeader (hs : Headers) (k : Str) : Option Str :=
  (hs.find? (fun p => p.1 = k)).map (fun p => p.2)

/-- Remove every entry of a header (werkzeug `Headers.remove`). -/
def removeHeader (hs : Headers) (k : Str) : Headers :=
  hs.filter (fun p => ¬ p.1 = k)

/-- Set a header, replacing prior entries (werkzeug `__setitem__`). -/
def setHeader (hs : Headers) (k v : Str) : Headers :=
  removeHeader hs k ++ [(k, v)]

/-- Python truthiness of the `Optional[str]` config entry
(`if APP_CONFIG.openai_token:`). -/
def truthyToken : Option Str → Bool
  | none => false
  | some s => ¬ s.isEmpty

/-- The header transformation of `forward_request` (views/utils.py,
lines 38-44): returns the headers sent upstream, or the exception raised
before any upstream request is issued. -/
def forward_request_headers (openai_token : Option Str) (caller : Headers) :
    Except PyErr Headers :=
  if truthyToken openai_token then
    .ok (setHeader caller AUTH ("Bearer ".data ++ openai_token.getD []))
  else
    match getHeader caller AUTH with
    | none => .error .keyError          -- headers.pop('Authorization')
    | some _ => .ok (removeHeader caller AUTH)

/-! ## Prompt construction (`RagDriver.build_prompt`)

`build_prompt` (model/rag_driver.py, lines 589-613) joins the context
segments with `'\n\n'` and concatenates the scaffolding.  `get_context` is
external to the claim: the context list is universally quantified. -/

/-- The message-list transformation of `RagDriver.build_prompt`
(lines 608-613), applied to the context list returned by `get_context`
and the query. -/
def build_prompt (contexts : List Str) (query : Str) : Str :=
  "Additional context:\n\n".data ++ joinSep nl2 contexts ++
    "Question: ".data ++ query ++ "\n\nAnswer: \n\n".data

/-- The language of `(.*\n\n)*` under DOTALL semantics: a concatenation
of blocks, each an arbitrary string followed by a blank line. -/
def starNl2 (w : Str) : Prop :=
  ∃ parts : List Str, w = (parts.map (fun p => p ++ nl2)).flatten

/-- The language of the spec §8.5 regex
`^Additional context:\n\n(.*\n\n)*Question: .*\n\nAnswer: \n\n$` with
DOTALL semantics (so each `.*` matches an arbitrary string, newlines
included). -/
def promptRegexMatches (s : Str) : Prop :=
  ∃ w q : Str, starNl2 w ∧
    s = "Additional context:\n\n".data ++ w ++ "Question: ".data ++ q ++
      "\n\nAnswer: \n\n".data

/-! ## The segmenter (`RagDriver._segment_document` and helpers)

The markdown parser (`MarkdownIt().parse`) and the token counter
(`RagDriver._estimate_tokens` over the selected tokenizer) are external
collaborators, modelled as universally quantified function parameters
`parse` and `estT`.  The mutual recursion of `_segment_document`,
`_try_deeper_split` and `_match_blocks` is embedded with explicit fuel;
a `none` result means the fuel ran out (the source recursion has no such
bound, so every terminating source run is a `some` run of the model for
every sufficiently large fuel). -/

/-- The fields of a markdown-it `Token` read by the segmenter. -/
structure MdToken where
  type : Str
  tag : Str
  content : Str

/-- `int(tok.tag[1])` (rag_driver.py, lines 177, 221): `IndexError` when
the tag is shorter than 2 characters, `ValueError` when the character is
not a digit. -/
def tagLevel (tag : Str) : Except PyErr Nat :=
  match tag.get? 1 with
  | none => .error .indexError
  | some c =>
    if '0' ≤ c ∧ c ≤ '9' then .ok (c.toNat - '0'.toNat)
    else .error .valueError

/-- The levels of the `heading_open` tokens, in source order (line 177:
`int(tok.tag[1]) for tok in tokens if tok.type == 'heading_open'`);
the first failing conversion propagates. -/
def headingLevelsRaw : List MdToken → Except PyErr (List Nat)
  | [] => .ok []
  | tok :: rest =>
    if tok.type = "heading_open".data then
      match tagLevel tok.tag with
      | .error e => .error e
      | .ok lvl =>
        match headingLevelsRaw rest with
        | .error e => .error e
        | .ok lvls => .ok (lvl :: lvls)
    else headingLevelsRaw rest

/-- Ordered duplicate-free insertion, building `sorted(set(...))`. -/
def insertLevel (x : Nat) : List Nat → List Nat
  | [] => [x]
  | y :: ys =>
    if x < y then x :: y :: ys
    else if x = y then y :: ys
    else y :: insertLevel x ys

/-- `sorted(set(...))` (line 177): deduplicate and sort ascending. -/
def headingLevels (tokens : List MdToken) : Except PyErr (List Nat) :=
  match headingLevelsRaw tokens with
  | .error e => .error e
  | .ok lvls => .ok (lvls.foldr insertLevel [])

/-- `RagDriver._tokens_to_text` (lines 231-239):
`''.join(getattr(t, 'content', '') for t in tokens).strip()`. -/
def tokens_to_text (tokens : List MdToken) : Str :=
  strip ((tokens.map (fun t => t.content)).flatten)

/-- `flush_block` (lines 215-218): append `(title, text)` when the title
or the pending content is non-empty; the content is cleared, the title is
not. -/
def flush_block (blocks : List (Str × Str)) (title : Str)
    (content : List MdToken) : List (Str × Str) :=
  if ¬ title.isEmpty ∨ ¬ content.isEmpty then
    blocks ++ [(title, tokens_to_text content)]
  else blocks

/-- The loop of `_split_by_heading_level` (lines 220-228); the state is
`(blocks, current_title, current_content)`, and `tokens[idx + 1]` is the
head of the remaining list. -/
def sbhlGo (split_level : Nat) :
    List MdToken → List (Str × Str) → Str → List MdToken →
    Except PyErr (List (Str × Str))
  | [], blocks, title, content => .ok (flush_block blocks title content)
  | tok :: rest, blocks, title, content =>
    if tok.type = "heading_open".data then
      match tagLevel tok.tag with
      | .error e => .error e
      | .ok lvl =>
        if lvl = split_level then
          let blocks' := flush_block blocks title content
          let title' := match rest.head? with
            | some nxt => nxt.content
            | none => title
          sbhlGo split_level rest blocks' title' []
        else sbhlGo split_level rest blocks title (content ++ [tok])
    else sbhlGo split_level rest blocks title (content ++ [tok])

/-- `RagDriver._split_by_heading_level` (lines 200-229). -/
def split_by_heading_level (tokens : List MdToken) (split_level : Nat) :
    Except PyErr (List (Str × Str)) :=
  sbhlGo split_level tokens [] [] []

/-- The accumulation loop of `_fallback_split` (lines 330-340);
`segments` and `current` are the loop state. -/
def fallback_split_go (estT : Str → Nat) (maxTok : Nat) :
    List Str → List Str → Str → List Str
  | [], segments, current =>
    if ¬ current.isEmpty then segments ++ [strip current] else segments
  | p :: ps, segments, current =>
    let tentative := if ¬ current.isEmpty then current ++ nl2 ++ p else p
    if estT tentative ≤ maxTok then
      fallback_split_go estT maxTok ps segments tentative
    else
      fallback_split_go estT maxTok ps
        (if ¬ current.isEmpty then segments ++ [strip current] else segments) p

/-- `RagDriver._fallback_split` (lines 316-342): split on blank lines,
strip, drop empties, then greedily re-concatenate under the budget. -/
def fallback_split (estT : Str → Nat) (maxTok : Nat) (document : Str) :
    List Str :=
  let paragraphs := ((splitNl2 document).map strip).filter
    (fun p => ¬ p.isEmpty)
  fallback_split_go estT maxTok paragraphs [] []

/-- `RagDriver._fallback_segment` (lines 241-255): the Python set
comprehension `{t for b in matching_blocks for t in split if b in t}` is
modelled as a deduplicated filtered list. -/
def fallback_segment (estT : Str → Nat) (maxTok : Nat) (document : Str)
    (matching_blocks : List Str) : List Str :=
  let split := fallback_split estT maxTok document
  (split.filter (fun t => matching_blocks.any (fun b => inStr b t))).dedup

/-- The loop of `_match_blocks` (lines 296-314): `seg` stands for the
recursive `_segment_document` call on an oversized body. -/
def match_blocks_go (estT : Str → Nat) (maxTok : Nat)
    (seg : Str → List Str → Option (Except PyErr (List Str))) :
    List (Str × Str) → List Str → List Str →
    Option (Except PyErr (List Str))
  | [], _, acc => some (.ok acc)
  | (title, text) :: rest, matching_blocks, acc =>
    let combined := title ++ '\n' :: text
    if matching_blocks.any (fun b => inStr b combined) then
      if maxTok < estT text then
        match seg text (matching_blocks.filter (fun b => inStr b combined)) with
        | none => none
        | some (.error e) => some (.error e)
        | some (.ok segs) => match_blocks_go estT maxTok seg rest matching_blocks (acc ++ segs)
      else match_blocks_go estT maxTok seg rest matching_blocks (acc ++ [text])
    else match_blocks_go estT maxTok seg rest matching_blocks acc

/-- `RagDriver._segment_document` (lines 152-198) together with
`_try_deeper_split` (lines 257-281) and `_match_blocks` (lines 283-314),
with explicit fuel for the recursion.  `estT` is
`_estimate_tokens`, `parse` is `MarkdownIt().parse`, `maxTok` is
`max_segment_tokens`, and `current_level` is the optional heading level
(`None` on the outer call; Python `current_level or all_levels[0]`
treats `0` like `None`). -/
def segment_document (estT : Str → Nat) (parse : Str → List MdToken)
    (maxTok : Nat) :
    Nat → Str → List Str → Option Nat → Option (Except PyErr (List Str))
  | 0, _, _, _ => none
  | fuel + 1, document, matching_blocks, current_level =>
    if matching_blocks.isEmpty then
      some (.error (.ragDriverError
        "No matching blocks provided for segmentation".data))
    else if estT document ≤ maxTok then some (.ok [document])
    else
      let tokens := parse document
      match headingLevels tokens with
      | .error e => some (.error e)
      | .ok all_levels =>
        if all_levels.isEmpty then
          some (.ok (fallback_segment estT maxTok document matching_blocks))
        else
          let split_level := match current_level with
            | some l => if l = 0 then all_levels.headD 0 else l
            | none => all_levels.headD 0
          match split_by_heading_level tokens split_level with
          | .error e => some (.error e)
          | .ok blocks =>
            if blocks.length = 1 then
              match (all_levels.filter (fun l => split_level < l)).head? with
              | some deeper =>
                segment_document estT parse maxTok fuel document
                  matching_blocks (some deeper)
              | none =>
                some (.ok (fallback_segment estT maxTok document matching_blocks))
            else
              match_blocks_go estT maxTok
                (fun d mbs =>
                  segment_document estT parse maxTok fuel d mbs
                    (some split_level))
                blocks matching_blocks []

/-- A paragraph-fallback input chunk: already stripped, non-empty, and
containing no blank-line separator (hence indivisible by the paragraph
splitter). -/
def goodPara (p : Str) : Prop :=
  strip p = p ∧ p ≠ [] ∧ ¬ nl2 <:+: p

/-- The segment token bound of spec §8.3: within the token budget, or a
single indivisible unit (a non-empty chunk containing no blank-line
paragraph separator, returned as-is by the paragraph fallback). -/
def segOk (estT : Str → Nat) (maxTok : Nat) (s : Str) : Prop :=
  estT s ≤ maxTok ∨ (s ≠ [] ∧ ¬ nl2 <:+: s)

/-! ## Theorems -/

set_option maxRecDepth 8000

/-- RFC 1321 test vector: `MD5("") = d41d8cd98f00b204e9800998ecf8427e`,
validating the embedded `hashlib.md5`. -/
theorem md5_rfc1321_empty :
    md5Bytes [] =
      [212, 29, 140, 217, 143, 0, 178, 4, 233, 128, 9, 152, 236, 248, 66, 126] := by
  decide

/-- RFC 1321 test vector: `MD5("abc") = 900150983cd24fb0d6963f7d28e17f72`. -/
theorem md5_rfc1321_abc :
    md5Bytes (utf8 "abc".data) =
      [144, 1, 80, 152, 60, 210, 79, 176, 214, 150, 63, 125, 40, 225, 127, 114] := by
  decide

/-- Every byte produced by `leBytes` is below 256. -/
theorem mem_leBytes_lt {n x b : Nat} (hb : b ∈ leBytes n x) : b < 256 := by
  simp only [leBytes, List.mem_map, List.mem_range] at hb
  obtain ⟨i, _, rfl⟩ := hb
  exact Nat.mod_lt _ (by norm_num)

/-- Every byte of an MD5 digest is below 256. -/
theorem mem_md5Bytes_lt {msg : List Nat} {b : Nat} (hb : b ∈ md5Bytes msg) :
    b < 256 := by
  simp only [md5Bytes, List.mem_append] at hb
  rcases hb with ((h | h) | h) | h <;> exact mem_leBytes_lt h

/-- Big-endian accumulation of bytes below 256 is bounded by
`(acc+1) * 256^len`. -/
theorem foldl_byte_lt (l : List Nat) : ∀ acc : Nat, (∀ b ∈ l, b < 256) →
    l.foldl (fun a b => a * 256 + b) acc < (acc + 1) * 256 ^ l.length := by
  induction l with
  | nil => intro acc _; simp
  | cons b t ih =>
    intro acc h
    have hb : b < 256 := h b (by simp)
    have ht := ih (acc * 256 + b) (fun x hx => h x (by simp [hx]))
    simp only [List.foldl_cons, List.length_cons]
    calc t.foldl (fun a b => a * 256 + b) (acc * 256 + b)
        < (acc * 256 + b + 1) * 256 ^ t.length := ht
      _ ≤ ((acc + 1) * 256) * 256 ^ t.length := by
          refine Nat.mul_le_mul_right _ (by omega)
      _ = (acc + 1) * 256 ^ (t.length + 1) := by ring

/-- `beBytesToNat` of a byte string is below `256 ^ length`. -/
theorem beBytesToNat_lt {l : List Nat} (h : ∀ b ∈ l, b < 256) :
    beBytesToNat l < 256 ^ l.length := by
  have := foldl_byte_lt l 0 h
  simpa [beBytesToNat] using this

/-- **C2, confirmed** — Stable id mapping: for every non-empty string
`s`, the point id `hash_id s` equals the first 8 bytes of the MD5 digest
of the UTF-8 encoding of `s` interpreted as a big-endian unsigned
integer, that value fits in 64 bits, and the mapping is deterministic
(equal inputs give equal ids). -/
theorem hash_id_spec (s : Str) (_h : s ≠ []) :
    hash_id s = beBytesToNat ((md5Bytes (utf8 s)).take 8) ∧
    hash_id s < 2 ^ 64 ∧ ∀ t : Str, t = s → hash_id t = hash_id s := by
  refine ⟨rfl, ?_, fun t ht => by rw [ht]⟩
  have hlt := beBytesToNat_lt (l := (md5Bytes (utf8 s)).take 8)
    (fun b hb => mem_md5Bytes_lt (List.mem_of_mem_take hb))
  have hlen : ((md5Bytes (utf8 s)).take 8).length ≤ 8 := by
    simp [List.length_take]
  calc hash_id s < 256 ^ ((md5Bytes (utf8 s)).take 8).length := hlt
    _ ≤ 256 ^ 8 := Nat.pow_le_pow_right (by norm_num) hlen
    _ = 2 ^ 64 := by norm_num

/-- Witness for `hash_id_spec` at the concrete string `"abc"`. -/
theorem hash_id_spec_witness :
    "abc".data ≠ ([] : Str) ∧ hash_id "abc".data < 2 ^ 64 :=
  ⟨by decide, (hash_id_spec "abc".data (by decide)).2.1⟩

/-- The MD5-derived id of a concrete block id, matching CPython's
`int.from_bytes(hashlib.md5(b"abc").digest()[:8], 'big')`. -/
theorem hash_id_abc : hash_id "abc".data = 10376663631224000432 := by
  decide

/-- One `add_block` leaves exactly the fresh point at `hash_id b`. -/
theorem add_block_filter {V : Type} (embed : Str → V) (b d c : Str)
    (store : List (Point V)) :
    (add_block embed store b d c).filter (fun q => q.id = hash_id b) =
      [⟨hash_id b, embed c, ⟨b, d, c⟩⟩] := by
  unfold add_block upsert upsertOne
  simp only [List.foldl_cons, List.foldl_nil, List.filter_append]
  rw [List.filter_filter]
  have h1 : ∀ l : List (Point V),
      l.filter (fun q => decide (q.id = hash_id b) && decide (q.id ≠ hash_id b)) = [] := by
    intro l
    induction l with
    | nil => rfl
    | cons p t ih =>
      by_cases hp : p.id = hash_id b <;> simp [List.filter_cons, hp, ih]
  rw [h1]
  simp [List.filter_cons]

/-- **C1, confirmed** — Idempotent indexing: for any block id `b`,
document id `d`, content `c` and any start state, executing
`add_block b d c` any positive number of times leaves the vector store
with exactly one point whose id is `hash_id b`, and that point's payload
records `b`, `d` and `c` (its vector being the embedding of `c`). -/
theorem add_block_idempotent {V : Type} (embed : Str → V) (b d c : Str)
    (n : Nat) (hn : 1 ≤ n) (store : List (Point V)) :
    (((fun st => add_block embed st b d c)^[n]) store).filter
        (fun q => q.id = hash_id b) =
      [⟨hash_id b, embed c, ⟨b, d, c⟩⟩] := by
  obtain ⟨m, rfl⟩ : ∃ m, n = m + 1 := ⟨n - 1, by omega⟩
  rw [Function.iterate_succ_apply']
  exact add_block_filter embed b d c _

/-- Witness for `add_block_idempotent`: one insertion into the empty
store, with a constant embedder. -/
theorem add_block_idempotent_witness :
    (1 : Nat) ≤ 1 ∧
    (((fun st => add_block (fun _ => (0 : Nat)) st "b".data "d".data "c".data)^[1])
        []).filter (fun q => q.id = hash_id "b".data) =
      [⟨hash_id "b".data, 0, ⟨"b".data, "d".data, "c".data⟩⟩] :=
  ⟨le_refl 1,
    add_block_idempotent (fun _ => 0) "b".data "d".data "c".data 1 (le_refl 1) []⟩

/-- **C5, confirmed** — Cursor atomicity: the `last_update` cursor file
changes only when the fetch returned a non-empty block list and the
batched upsert succeeded, in which case it is written with the wall-clock
time captured before the fetch; if fetching or upserting raises, the
cursor file is unchanged. -/
theorem update_index_cursor_atomic (env : SweepEnv) :
    ((update_index env).cursorFile ≠ env.cursorFile →
      ∃ blocks, env.fetchResult = .ok blocks ∧ blocks ≠ [] ∧
        env.upsertResult = .ok () ∧
        (update_index env).cursorFile = some env.now) ∧
    (∀ e, env.fetchResult = .error e →
      (update_index env).cursorFile = env.cursorFile) ∧
    (∀ e, env.upsertResult = .error e →
      (update_index env).cursorFile = env.cursorFile) := by
  obtain ⟨cf, fr, ur, now⟩ := env
  rcases fr with e | blocks
  · simp [update_index]
  · rcases ur with e | u
    · rcases blocks with _ | ⟨b, bs⟩ <;> simp [update_index]
    · rcases blocks with _ | ⟨b, bs⟩ <;> simp [update_index]

/-- Witness for `update_index_cursor_atomic`: a failing fetch leaves the
concrete cursor `some 5` unchanged. -/
theorem update_index_cursor_atomic_witness :
    (update_index ⟨some 5, .error .siyuanApiError, .ok (), 99⟩).cursorFile =
      some 5 :=
  (update_index_cursor_atomic ⟨some 5, .error .siyuanApiError, .ok (), 99⟩).2.1
    .siyuanApiError rfl

/-- **C9, counterexample** — the claim "update_index never propagates an
exception to its caller" is false on the code: a failing block fetch is
not caught inside the sweep (tasks.py has no `try/except` around it), so
the sweep's outcome is the propagated exception, not a normal return. -/
theorem update_index_propagates_counterexample :
    (update_index ⟨none, .error .siyuanApiError, .ok (), 0⟩).result =
      .error .siyuanApiError ∧
    (Except.error PyErr.siyuanApiError : Except PyErr Unit) ≠ .ok () :=
  ⟨rfl, by simp⟩

/-- **C9, amended** — `update_index` catches only the
`FileNotFoundError` of the cursor read (an absent cursor file is treated
as 0 and the sweep completes normally); failures of the block fetch or of
the embed+upsert batch propagate to the caller. -/
theorem update_index_error_propagation (env : SweepEnv) :
    (∀ e, env.fetchResult = .error e →
      (update_index env).result = .error e) ∧
    (∀ blocks e, env.fetchResult = .ok blocks → blocks ≠ [] →
      env.upsertResult = .error e → (update_index env).result = .error e) ∧
    (env.cursorFile = none → env.fetchResult = .ok [] →
      (update_index env).result = .ok ()) := by
  obtain ⟨cf, fr, ur, now⟩ := env
  rcases fr with e | blocks
  · simp [update_index]
  · rcases ur with e | u
    · rcases blocks with _ | ⟨b, bs⟩ <;> simp [update_index]
    · rcases blocks with _ | ⟨b, bs⟩ <;> simp [update_index]

/-- Witness for `update_index_error_propagation`: a failing upsert on a
non-empty batch propagates out of the sweep. -/
theorem update_index_error_propagation_witness :
    (update_index
        ⟨none, .ok [⟨"A".data, "hello".data, "D1".data⟩],
          .error .siyuanApiError, 3⟩).result = .error .siyuanApiError :=
  (update_index_error_propagation
      ⟨none, .ok [⟨"A".data, "hello".data, "D1".data⟩],
        .error .siyuanApiError, 3⟩).2.1
    [⟨"A".data, "hello".data, "D1".data⟩] .siyuanApiError rfl (by simp) rfl

/-- **C10, confirmed** — zero-delta sweeps never touch the cursor: when
the notes client returns an empty block list, `update_index` performs no
upsert and leaves the cursor file exactly as it was (in particular an
absent cursor stays absent); conversely the cursor file changes only in
sweeps where at least one block was fetched and the batched upsert
succeeded. -/
theorem update_index_zero_delta (env : SweepEnv) :
    (env.fetchResult = .ok [] →
      update_index env = ⟨env.cursorFile, false, .ok ()⟩) ∧
    ((update_index env).cursorFile ≠ env.cursorFile →
      (update_index env).upsertCalled = true ∧
      ∃ blocks, env.fetchResult = .ok blocks ∧ blocks ≠ [] ∧
        env.upsertResult = .ok ()) := by
  obtain ⟨cf, fr, ur, now⟩ := env
  rcases fr with e | blocks
  · simp [update_index]
  · rcases ur with e | u
    · rcases blocks with _ | ⟨b, bs⟩ <;> simp [update_index]
    · rcases blocks with _ | ⟨b, bs⟩ <;> simp [update_index]

/-- Witness for `update_index_zero_delta`: a first sweep with no updated
blocks leaves the cursor file absent and calls no upsert. -/
theorem update_index_zero_delta_witness :
    update_index ⟨none, .ok [], .ok (), 7⟩ = ⟨none, false, .ok ()⟩ :=
  (update_index_zero_delta ⟨none, .ok [], .ok (), 7⟩).1 rfl

/-- `first_user_message` returns the content of the first user-role
message. -/
theorem first_user_of_split (pre rest : List ChatMessage) (qm : ChatMessage)
    (hpre : ∀ x ∈ pre, x.role ≠ "user".data) (hq : qm.role = "user".data) :
    first_user_message (pre ++ qm :: rest) = qm.content := by
  induction pre with
  | nil =>
    simp only [List.nil_append, first_user_message]
    rw [List.find?_cons_of_pos _ (by simp [hq])]
  | cons p t ih =>
    have hp : p.role ≠ "user".data := hpre p (by simp)
    have ht : ∀ x ∈ t, x.role ≠ "user".data := fun x hx => hpre x (by simp [hx])
    simp only [List.cons_append, first_user_message] at ih ⊢
    rw [List.find?_cons_of_neg _ (by simp [hp])]
    exact ih ht

/-- `replace_first_user` rewrites the first user-role message only. -/
theorem replace_first_user_split (p : Str) (l1 l2 : List ChatMessage)
    (m : ChatMessage) (hl1 : ∀ x ∈ l1, x.role ≠ "user".data)
    (hm : m.role = "user".data) :
    replace_first_user p (l1 ++ m :: l2) = l1 ++ ⟨m.role, p⟩ :: l2 := by
  induction l1 with
  | nil => simp [replace_first_user, hm]
  | cons x t ih =>
    have hx : x.role ≠ "user".data := hl1 x (by simp)
    have ht : ∀ y ∈ t, y.role ≠ "user".data := fun y hy => hl1 y (by simp [hy])
    simp [replace_first_user, hx, ih ht]

/-- `replace_last_user` rewrites the last user-role message only. -/
theorem replace_last_user_split (p : Str) (pre post : List ChatMessage)
    (m : ChatMessage) (hpost : ∀ x ∈ post, x.role ≠ "user".data)
    (hm : m.role = "user".data) :
    replace_last_user (pre ++ m :: post) p = pre ++ ⟨m.role, p⟩ :: post := by
  unfold replace_last_user
  have h1 : (pre ++ m :: post).reverse = post.reverse ++ m :: pre.reverse := by
    simp
  rw [h1, replace_first_user_split p post.reverse pre.reverse m
    (fun x hx => hpost x (List.mem_reverse.mp hx)) hm]
  simp

/-- **C4, counterexample** — with two user messages `A` then `B` and a
prompt rewriter appending `"!"`, the claim predicts that the query is the
content of the *last* user message (`B`), so the last message would
become `B!`; the code instead selects the *first* user message (`A`) as
the query, producing `A!`. -/
theorem rag_chat_counterexample :
    v1_chat_completion_rag (fun s => s ++ "!".data)
        [⟨"user".data, "A".data⟩, ⟨"user".data, "B".data⟩] ≠
      .ok [⟨"user".data, "A".data⟩,
        ⟨"user".data, "B".data ++ "!".data⟩] := by
  decide

/-- **C4, amended** — RAG chat query selection: for every request whose
messages contain at least one user-role message, the query passed to
`build_prompt` is the content of the **first** user-role message (a 400
error is raised when that content is empty), and the rewritten prompt
replaces the content of the **last** user-role message while all other
messages are unchanged. -/
theorem rag_chat_spec (bp : Str → Str)
    (messages pre1 rest1 pre2 post2 : List ChatMessage) (qm lm : ChatMessage)
    (h1 : messages = pre1 ++ qm :: rest1)
    (hpre1 : ∀ x ∈ pre1, x.role ≠ "user".data)
    (hqm : qm.role = "user".data)
    (h2 : messages = pre2 ++ lm :: post2)
    (hpost2 : ∀ x ∈ post2, x.role ≠ "user".data)
    (hlm : lm.role = "user".data)
    (hne : qm.content ≠ []) :
    v1_chat_completion_rag bp messages =
      .ok (pre2 ++ ⟨lm.role, bp qm.content⟩ :: post2) := by
  have hq : first_user_message messages = qm.content := by
    rw [h1]; exact first_user_of_split pre1 rest1 qm hpre1 hqm
  have hemp : qm.content.isEmpty = false := by
    cases hc : qm.content with
    | nil => exact absurd hc hne
    | cons a t => rfl
  simp only [v1_chat_completion_rag, hq, hemp, Bool.false_eq_true, if_false]
  rw [h2, replace_last_user_split (bp qm.content) pre2 post2 lm hpost2 hlm]

/-- Witness for `rag_chat_spec`: a system message followed by a single
user message `"what is X?"`; its content is both the query and the
replaced field. -/
theorem rag_chat_spec_witness :
    v1_chat_completion_rag (fun s => "P:".data ++ s)
        [⟨"system".data, "s".data⟩, ⟨"user".data, "what is X?".data⟩] =
      .ok ([⟨"system".data, "s".data⟩] ++
        ⟨"user".data, "P:".data ++ "what is X?".data⟩ :: []) :=
  rag_chat_spec (fun s => "P:".data ++ s)
    [⟨"system".data, "s".data⟩, ⟨"user".data, "what is X?".data⟩]
    [⟨"system".data, "s".data⟩] [] [⟨"system".data, "s".data⟩] []
    ⟨"user".data, "what is X?".data⟩ ⟨"user".data, "what is X?".data⟩
    rfl (by decide) rfl rfl (by decide) rfl (by decide)

/-- `pySplitSpaceAux` on a space-free string yields one field. -/
theorem pySplitSpaceAux_no_space (a : Str) :
    ∀ cur : Str, (∀ c ∈ a, c ≠ ' ') →
      pySplitSpaceAux a cur = [cur.reverse ++ a] := by
  induction a with
  | nil => intro cur _; simp [pySplitSpaceAux]
  | cons c t ih =>
    intro cur h
    have hc : c ≠ ' ' := h c (by simp)
    have ht : ∀ x ∈ t, x ≠ ' ' := fun x hx => h x (by simp [hx])
    simp [pySplitSpaceAux, hc, ih (c :: cur) ht]

/-- `pySplitSpaceAux` across the first space. -/
theorem pySplitSpaceAux_space (a b : Str) :
    ∀ cur : Str, (∀ c ∈ a, c ≠ ' ') →
      pySplitSpaceAux (a ++ ' ' :: b) cur =
        (cur.reverse ++ a) :: pySplitSpaceAux b [] := by
  induction a with
  | nil => intro cur _; simp [pySplitSpaceAux]
  | cons c t ih =>
    intro cur h
    have hc : c ≠ ' ' := h c (by simp)
    have ht : ∀ x ∈ t, x ≠ ' ' := fun x hx => h x (by simp [hx])
    simp [pySplitSpaceAux, hc, ih (c :: cur) ht]

/-- The head of `pySplitSpaceAux` is the pending field extended by the
characters before the next space. -/
theorem pySplitSpaceAux_head (b : Str) :
    ∀ cur : Str, (pySplitSpaceAux b cur).head? =
      some (cur.reverse ++ b.takeWhile (fun c => c ≠ ' ')) := by
  induction b with
  | nil => intro cur; simp [pySplitSpaceAux]
  | cons c t ih =>
    intro cur
    by_cases hc : c = ' '
    · simp [pySplitSpaceAux, hc, List.takeWhile_cons]
    · simp [pySplitSpaceAux, hc, ih (c :: cur), List.takeWhile_cons]

/-- Every string containing a space splits at its first space. -/
theorem exists_space_split (h : Str) (hs : ' ' ∈ h) :
    ∃ a b : Str, h = a ++ ' ' :: b ∧ ∀ c ∈ a, c ≠ ' ' := by
  induction h with
  | nil => cases hs
  | cons c t ih =>
    by_cases hc : c = ' '
    · exact ⟨[], t, by rw [hc]; rfl, by simp⟩
    · have hst : ' ' ∈ t := by
        rcases List.mem_cons.mp hs with h' | h'
        · exact absurd h'.symm hc
        · exact h'
      obtain ⟨a, b, hab, ha⟩ := ih hst
      refine ⟨c :: a, b, by rw [hab]; rfl, ?_⟩
      intro x hx
      rcases List.mem_cons.mp hx with h' | h'
      · rw [h']; exact fun he => hc he
      · exact ha x h'

/-- The second field of Python `h.split(' ')`, when the string contains a
space: the characters after the first space, up to the next space. -/
theorem pySplitSpace_get1 (a b : Str) (ha : ∀ c ∈ a, c ≠ ' ') :
    (pySplitSpace (a ++ ' ' :: b)).get? 1 =
      some (b.takeWhile (fun c => c ≠ ' ')) := by
  unfold pySplitSpace
  rw [pySplitSpaceAux_space a b [] ha]
  have := pySplitSpaceAux_head b []
  cases hsp : pySplitSpaceAux b [] with
  | nil => rw [hsp] at this; cases this
  | cons x xs =>
    rw [hsp] at this
    simp only [List.head?_cons, Option.some_inj] at this
    simp [this]

/-- A space-free string yields a single field, so `split(' ')[1]` raises. -/
theorem pySplitSpace_get1_none (h : Str) (hs : ' ' ∉ h) :
    (pySplitSpace h).get? 1 = none := by
  unfold pySplitSpace
  rw [pySplitSpaceAux_no_space h [] (fun c hc he => hs (he ▸ hc))]
  rfl

/-- **C6, counterexample** — with `companion_token = "x"`, the header
`"Token x"` is not of the form `"Bearer x"`, yet the gate passes the
request (no 401): the code compares only `split(' ')[1]`.  A header
`"x"` without any space raises `IndexError` instead of returning 401. -/
theorem token_required_counterexample :
    token_required (some "x".data) (some "Token x".data) = .pass ∧
    "Token x".data ≠ "Bearer x".data ∧
    token_required (some "x".data) (some "x".data) = .indexError := by
  refine ⟨by decide, by decide, by decide⟩

/-- **C6, amended** — Auth gate: with a configured token, a request
passes iff its `Authorization` header contains a space and the field
after the first space (up to the next space) equals the token — whatever
the scheme word is; it receives 401 iff the header is absent, empty, or
has such a second field differing from the token; a non-empty header
with no space at all raises an uncaught `IndexError` (yielding a 500,
not a 401, on endpoints without the error handler). -/
theorem token_required_characterization (tok : Str) (hdr : Option Str) :
    (token_required (some tok) hdr = .pass ↔
      ∃ h a b : Str, hdr = some h ∧ h = a ++ ' ' :: b ∧ (∀ c ∈ a, c ≠ ' ') ∧
        b.takeWhile (fun c => c ≠ ' ') = tok) ∧
    (token_required (some tok) hdr = .indexError ↔
      ∃ h : Str, hdr = some h ∧ h ≠ [] ∧ ' ' ∉ h) ∧
    (token_required (some tok) hdr = .unauthorized ↔
      (hdr = none ∨ hdr = some [] ∨
        ∃ h a b : Str, hdr = some h ∧ h = a ++ ' ' :: b ∧ (∀ c ∈ a, c ≠ ' ') ∧
          b.takeWhile (fun c => c ≠ ' ') ≠ tok)) := by
  rcases hdr with _ | h
  · refine ⟨?_, ?_, ?_⟩ <;> simp [token_required]
  · by_cases hemp : h = []
    · subst hemp
      refine ⟨?_, ?_, ?_⟩ <;> simp [token_required]
    · have hne : h.isEmpty = false := by
        cases h with
        | nil => exact absurd rfl hemp
        | cons a t => rfl
      by_cases hsp : ' ' ∈ h
      · obtain ⟨a, b, hab, ha⟩ := exists_space_split h hsp
        have hget : (pySplitSpace h).get? 1 =
            some (b.takeWhile (fun c => c ≠ ' ')) := by
          rw [hab]; exact pySplitSpace_get1 a b ha
        by_cases htok : b.takeWhile (fun c => c ≠ ' ') = tok
        · refine ⟨?_, ?_, ?_⟩
          · simp only [token_required, hne, Bool.false_eq_true, if_false, hget]
            simp only [htok, ne_eq, not_true_eq_false, if_false]
            exact ⟨fun _ => ⟨h, a, b, rfl, hab, ha, htok⟩, fun _ => trivial⟩
          · simp only [token_required, hne, Bool.false_eq_true, if_false, hget]
            simp only [htok, ne_eq, not_true_eq_false, if_false]
            constructor
            · intro hcon; cases hcon
            · rintro ⟨h', hh', _, hsp'⟩
              cases hh'
              exact absurd hsp hsp'
          · simp only [token_required, hne, Bool.false_eq_true, if_false, hget]
            simp only [htok, ne_eq, not_true_eq_false, if_false]
            constructor
            · intro hcon; cases hcon
            · rintro (hcon | hcon | ⟨h', a', b', hh', hab', ha', htok'⟩)
              · cases hcon
              · rw [Option.some_inj] at hcon; exact absurd hcon hemp
              · cases hh'
                have : (pySplitSpace h).get? 1 =
                    some (b'.takeWhile (fun c => c ≠ ' ')) := by
                  rw [hab']; exact pySplitSpace_get1 a' b' ha'
                rw [hget] at this
                rw [Option.some_inj] at this
                exact absurd (this ▸ htok) htok'
        · refine ⟨?_, ?_, ?_⟩
          · simp only [token_required, hne, Bool.false_eq_true, if_false, hget]
            simp only [htok, ne_eq, not_false_eq_true, if_true]
            constructor
            · intro hcon; cases hcon
            · rintro ⟨h', a', b', hh', hab', ha', htok'⟩
              cases hh'
              have : (pySplitSpace h).get? 1 =
                  some (b'.takeWhile (fun c => c ≠ ' ')) := by
                rw [hab']; exact pySplitSpace_get1 a' b' ha'
              rw [hget] at this
              rw [Option.some_inj] at this
              exact absurd (this ▸ htok') htok
          · simp only [token_required, hne, Bool.false_eq_true, if_false, hget]
            simp only [htok, ne_eq, not_false_eq_true, if_true]
            constructor
            · intro hcon; cases hcon
            · rintro ⟨h', hh', _, hsp'⟩
              cases hh'
              exact absurd hsp hsp'
          · simp only [token_required, hne, Bool.false_eq_true, if_false, hget]
            simp only [htok, ne_eq, not_false_eq_true, if_true]
            exact ⟨fun _ => Or.inr (Or.inr ⟨h, a, b, rfl, hab, ha, htok⟩),
              fun _ => trivial⟩
      · have hget : (pySplitSpace h).get? 1 = none :=
          pySplitSpace_get1_none h hsp
        refine ⟨?_, ?_, ?_⟩
        · simp only [token_required, hne, Bool.false_eq_true, if_false, hget]
          constructor
          · intro hcon; cases hcon
          · rintro ⟨h', a', b', hh', hab', _, _⟩
            cases hh'
            exact absurd (show (' ' ∈ h) by rw [hab']; simp) hsp
        · simp only [token_required, hne, Bool.false_eq_true, if_false, hget]
          exact ⟨fun _ => ⟨h, rfl, hemp, hsp⟩, fun _ => trivial⟩
        · simp only [token_required, hne, Bool.false_eq_true, if_false, hget]
          constructor
          · intro hcon; cases hcon
          · rintro (hcon | hcon | ⟨h', a', b', hh', hab', _, _⟩)
            · cases hcon
            · rw [Option.some_inj] at hcon; exact absurd hcon hemp
            · cases hh'
              exact absurd (show (' ' ∈ h) by rw [hab']; simp) hsp

/-- The upstream `Authorization` header after `setHeader` is the new
value. -/
theorem getHeader_setHeader (hs : Headers) (k v : Str) :
    getHeader (setHeader hs k v) k = some v := by
  unfold setHeader removeHeader getHeader
  induction hs with
  | nil => simp [List.find?]
  | cons p t ih =>
    by_cases hp : p.1 = k <;>
      simp [List.filter_cons, hp, List.find?_cons, ih]

/-- After `removeHeader` the header is gone. -/
theorem getHeader_removeHeader (hs : Headers) (k : Str) :
    getHeader (removeHeader hs k) k = none := by
  unfold removeHeader getHeader
  induction hs with
  | nil => rfl
  | cons p t ih =>
    by_cases hp : p.1 = k <;>
      simp [List.filter_cons, hp, List.find?_cons, ih]

/-- **C7, counterexample** — two incoming requests differing only in
their `Authorization` header (one absent, one present), with no upstream
token configured: the first raises `KeyError` inside
`headers.pop('Authorization')` before any upstream request, the second is
forwarded; they do not produce identical upstream requests. -/
theorem forward_request_counterexample :
    removeHeader [] AUTH = removeHeader [(AUTH, "Bearer y".data)] AUTH ∧
    forward_request_headers none [] ≠
      forward_request_headers none [(AUTH, "Bearer y".data)] := by
  exact ⟨by decide, by decide⟩

/-- **C7, amended** — Upstream credential isolation: when an upstream
token is configured (a non-empty `openai_token`), every forwarded request
carries `Authorization: Bearer <openai_token>` upstream and two incoming
requests differing only in their `Authorization` header produce identical
upstream header sets; when none is configured, any forwarded request
carries no `Authorization` upstream (a caller header is removed — never
forwarded — and an absent one raises `KeyError` before any upstream
request is made). -/
theorem forward_request_auth_isolation (tok : Option Str) (h1 h2 : Headers) :
    (truthyToken tok = true →
      (∀ hdrs : Headers, ∃ out, forward_request_headers tok hdrs = .ok out ∧
        getHeader out AUTH = some ("Bearer ".data ++ tok.getD [])) ∧
      (removeHeader h1 AUTH = removeHeader h2 AUTH →
        forward_request_headers tok h1 = forward_request_headers tok h2)) ∧
    (truthyToken tok = false →
      ∀ hdrs out, forward_request_headers tok hdrs = .ok out →
        getHeader out AUTH = none) := by
  constructor
  · intro ht
    constructor
    · intro hdrs
      refine ⟨setHeader hdrs AUTH ("Bearer ".data ++ tok.getD []), ?_,
        getHeader_setHeader hdrs AUTH _⟩
      simp [forward_request_headers, ht]
    · intro heq
      simp only [forward_request_headers, ht, if_true]
      unfold setHeader
      rw [heq]
  · intro ht hdrs out hfr
    simp only [forward_request_headers, ht, Bool.false_eq_true, if_false] at hfr
    cases hg : getHeader hdrs AUTH with
    | none => rw [hg] at hfr; cases hfr
    | some v =>
      rw [hg] at hfr
      have : out = removeHeader hdrs AUTH := by
        cases hfr; rfl
      rw [this]
      exact getHeader_removeHeader hdrs AUTH

/-- Witness for `forward_request_auth_isolation`: with configured token
`"t"` and no caller headers, the upstream request carries
`Authorization: Bearer t`. -/
theorem forward_request_auth_isolation_witness :
    ∃ out, forward_request_headers (some "t".data) [] = .ok out ∧
      getHeader out AUTH = some ("Bearer ".data ++ (some "t".data).getD []) :=
  ((forward_request_auth_isolation (some "t".data) [] []).1 (by decide)).1 []

/-- The concatenation of blocks each ending in a blank line is empty or
ends in a blank line. -/
theorem flatten_nl2_form : ∀ parts : List Str,
    (parts.map (fun p => p ++ nl2)).flatten = [] ∨
    ∃ pre, (parts.map (fun p => p ++ nl2)).flatten = pre ++ nl2
  | [] => Or.inl rfl
  | p :: rest => by
    rcases flatten_nl2_form rest with h | ⟨pre, hpre⟩
    · right
      refine ⟨p, ?_⟩
      simp [h]
    · right
      refine ⟨p ++ nl2 ++ pre, ?_⟩
      simp [hpre, List.append_assoc]

/-- The language of `(.*\n\n)*` (DOTALL) is exactly the set of strings
that are empty or end in a blank line. -/
theorem starNl2_iff (w : Str) :
    starNl2 w ↔ w = [] ∨ ∃ pre, w = pre ++ nl2 := by
  constructor
  · rintro ⟨parts, rfl⟩
    exact flatten_nl2_form parts
  · rintro (rfl | ⟨pre, rfl⟩)
    · exact ⟨[], rfl⟩
    · exact ⟨[pre], by simp⟩

/-- If a string equals `pre ++ rest` with `pre` of length `m`, its
`m`-prefix is `pre`. -/
theorem prefix_clash (s pre rest : Str) (m : Nat) (hm : pre.length = m)
    (hs : s = pre ++ rest) (hne : s.take m ≠ pre) : False := by
  rw [hs, ← hm, List.take_left] at hne
  exact hne rfl

/-- **C3, counterexample** — with the non-empty context list
`["seg1"]` and query `"q"`, the string returned by `build_prompt` is
`"Additional context:\n\nseg1Question: q\n\nAnswer: \n\n"`: no blank
line separates the context segment from `"Question: "`, and the string
does not match the spec §8.5 regex (under DOTALL semantics). -/
theorem build_prompt_regex_counterexample :
    ¬ promptRegexMatches (build_prompt ["seg1".data] "q".data) := by
  rintro ⟨w, q, hw, hs⟩
  have hsc : build_prompt ["seg1".data] "q".data =
      "Additional context:\n\nseg1Question: q\n\nAnswer: \n\n".data := by
    decide
  rw [hsc] at hs
  have lA : ("Additional context:\n\n".data).length = 21 := by decide
  have lQ : ("Question: ".data).length = 10 := by decide
  have lS : ("\n\nAnswer: \n\n".data).length = 12 := by decide
  have lT : ("Additional context:\n\nseg1Question: q\n\nAnswer: \n\n".data).length
      = 48 := by decide
  have hL := congrArg List.length hs
  simp only [List.length_append] at hL
  rw [lA, lQ, lS, lT] at hL
  have hlen : w.length + q.length = 5 := by omega
  have hsR := hs
  rw [List.append_assoc, List.append_assoc, List.append_assoc] at hsR
  have h21 : ("Additional context:\n\nseg1Question: q\n\nAnswer: \n\n".data).drop 21 =
      w ++ ("Question: ".data ++ (q ++ "\n\nAnswer: \n\n".data)) := by
    rw [hsR, ← lA, List.drop_left]
  have hwv : w = (("Additional context:\n\nseg1Question: q\n\nAnswer: \n\n".data).drop 21).take
      w.length := by
    rw [h21, List.take_left]
  have h5 : w.length = 0 ∨ w.length = 1 ∨ w.length = 2 ∨ w.length = 3 ∨
      w.length = 4 ∨ w.length = 5 := by omega
  rw [List.append_assoc] at hs
  rcases h5 with h | h | h | h | h | h
  · have hwc : w = [] := by rw [hwv, h]; decide
    rw [hwc] at hs
    exact prefix_clash _ (("Additional context:\n\n".data ++ []) ++ "Question: ".data)
      (q ++ "\n\nAnswer: \n\n".data) 31 (by decide) hs (by decide)
  · have hwc : w = ['s'] := by rw [hwv, h]; decide
    rw [hwc] at hs
    exact prefix_clash _ (("Additional context:\n\n".data ++ ['s']) ++ "Question: ".data)
      (q ++ "\n\nAnswer: \n\n".data) 32 (by decide) hs (by decide)
  · have hwc : w = ['s', 'e'] := by rw [hwv, h]; decide
    rw [hwc] at hs
    exact prefix_clash _ (("Additional context:\n\n".data ++ ['s', 'e']) ++ "Question: ".data)
      (q ++ "\n\nAnswer: \n\n".data) 33 (by decide) hs (by decide)
  · have hwc : w = ['s', 'e', 'g'] := by rw [hwv, h]; decide
    rw [hwc] at hs
    exact prefix_clash _ (("Additional context:\n\n".data ++ ['s', 'e', 'g']) ++ "Question: ".data)
      (q ++ "\n\nAnswer: \n\n".data) 34 (by decide) hs (by decide)
  · -- `w = "seg1"`: the star group must be empty or end in a blank line
    have hwc : w = ['s', 'e', 'g', '1'] := by rw [hwv, h]; decide
    rcases (starNl2_iff w).mp hw with h0 | ⟨pre, hpre⟩
    · rw [hwc] at h0; cases h0
    · rw [hwc] at hpre
      have hl2 : pre.length = 2 := by
        have := congrArg List.length hpre
        simp [nl2, List.length_append] at this
        omega
      have hp := congrArg (List.take pre.length) hpre
      rw [List.take_left] at hp
      rw [hl2] at hp
      rw [← hp] at hpre
      exact absurd hpre (by decide)
  · have hwc : w = ['s', 'e', 'g', '1', 'Q'] := by rw [hwv, h]; decide
    rw [hwc] at hs
    exact prefix_clash _
      (("Additional context:\n\n".data ++ ['s', 'e', 'g', '1', 'Q']) ++ "Question: ".data)
      (q ++ "\n\nAnswer: \n\n".data) 36 (by decide) hs (by decide)

/-- **C3, amended** — Prompt structure: `build_prompt` returns exactly
`"Additional context:\n\n" + "\n\n".join(contexts) + "Question: " +
query + "\n\nAnswer: \n\n"`, inserting no blank line between the joined
contexts and `"Question: "`; the output matches the spec §8.5 regex
whenever the joined context block is empty (in particular for an empty
context list) or itself ends in a blank line — but not in general: the
counterexample (`contexts = ["seg1"]`, `query = "q"`) fails the
regex. -/
theorem build_prompt_regex_amended (contexts : List Str) (query : Str)
    (h : joinSep nl2 contexts = [] ∨
      ∃ pre, joinSep nl2 contexts = pre ++ nl2) :
    promptRegexMatches (build_prompt contexts query) :=
  ⟨joinSep nl2 contexts, query, (starNl2_iff _).mpr h, rfl⟩

/-- Witness for `build_prompt_regex_amended`: the empty context list
(spec scenario S2). -/
theorem build_prompt_regex_amended_witness :
    promptRegexMatches (build_prompt [] "q".data) :=
  build_prompt_regex_amended [] "q".data (Or.inl rfl)

/-- The head of a `dropWhile` result fails the predicate. -/
theorem head?_dropWhile {α : Type} {p : α → Bool} :
    ∀ (l : List α) (c : α), (l.dropWhile p).head? = some c → p c = false := by
  intro l
  induction l with
  | nil => intro c h; cases h
  | cons a t ih =>
    intro c h
    by_cases ha : p a
    · rw [List.dropWhile_cons_of_pos ha] at h
      exact ih c h
    · rw [List.dropWhile_cons_of_neg ha] at h
      simp only [List.head?_cons, Option.some_inj] at h
      subst h
      simpa using ha

/-- `dropWhile` is the identity when the head fails the predicate. -/
theorem dropWhile_eq_self_of_head {α : Type} {p : α → Bool} (l : List α)
    (h : ∀ c, l.head? = some c → p c = false) : l.dropWhile p = l := by
  cases l with
  | nil => rfl
  | cons a t => exact List.dropWhile_cons_of_neg (by simp [h a rfl])

/-- The first character of a stripped string is not whitespace. -/
theorem strip_head (s : Str) (c : Char) (h : (strip s).head? = some c) :
    isPySpace c = false := by
  unfold strip at h
  set u := s.dropWhile isPySpace with hu
  set v := u.reverse.dropWhile isPySpace with hv
  rw [List.head?_reverse] at h
  have hvne : v ≠ [] := by
    intro h0
    rw [h0] at h
    cases h
  obtain ⟨w, hw⟩ : v <:+ u.reverse := hv ▸ List.dropWhile_suffix _
  have h3 : u.reverse.getLast? = some c := by
    rw [← hw, List.getLast?_append_of_ne_nil w hvne]
    exact h
  rw [List.getLast?_reverse] at h3
  exact head?_dropWhile s c (hu ▸ h3)

/-- The last character of a stripped string is not whitespace. -/
theorem strip_getLast (s : Str) (c : Char)
    (h : (strip s).getLast? = some c) : isPySpace c = false := by
  unfold strip at h
  rw [List.getLast?_reverse] at h
  exact head?_dropWhile _ c h

/-- `strip` is the identity on strings with non-space ends. -/
theorem strip_no_op (s : Str)
    (h1 : ∀ c, s.head? = some c → isPySpace c = false)
    (h2 : ∀ c, s.getLast? = some c → isPySpace c = false) :
    strip s = s := by
  unfold strip
  rw [dropWhile_eq_self_of_head s h1,
    dropWhile_eq_self_of_head s.reverse
      (fun c hc => h2 c (by rwa [List.head?_reverse] at hc)),
    List.reverse_reverse]

/-- `strip` is idempotent. -/
theorem strip_idem (s : Str) : strip (strip s) = strip s :=
  strip_no_op _ (strip_head s) (strip_getLast s)

/-- The stripped string is an infix of the original. -/
theorem strip_within (s : Str) : strip s <:+: s := by
  have h1 : (s.dropWhile isPySpace) <:+ s := List.dropWhile_suffix _
  obtain ⟨t, ht⟩ :=
    List.dropWhile_suffix (l := (s.dropWhile isPySpace).reverse) isPySpace
  have h2 : strip s <+: (s.dropWhile isPySpace) := by
    refine ⟨t.reverse, ?_⟩
    unfold strip
    calc ((s.dropWhile isPySpace).reverse.dropWhile isPySpace).reverse ++ t.reverse
        = (t ++ (s.dropWhile isPySpace).reverse.dropWhile isPySpace).reverse := by
          rw [List.reverse_append]
      _ = (s.dropWhile isPySpace).reverse.reverse := by rw [ht]
      _ = s.dropWhile isPySpace := List.reverse_reverse _
  exact h2.isInfix.trans h1.isInfix

/-- `strip` is the identity on the blank-line concatenation of two
stripped non-empty strings. -/
theorem strip_append_nl2 (a b : Str) (ha : strip a = a) (hane : a ≠ [])
    (hb : strip b = b) (hbne : b ≠ []) :
    strip (a ++ nl2 ++ b) = a ++ nl2 ++ b := by
  apply strip_no_op
  · intro c hc
    have hhd : (a ++ nl2 ++ b).head? = a.head? := by
      cases a with
      | nil => exact absurd rfl hane
      | cons x t => rfl
    rw [hhd] at hc
    exact strip_head a c (by rwa [ha])
  · intro c hc
    rw [List.getLast?_append_of_ne_nil _ hbne] at hc
    exact strip_getLast b c (by rwa [hb])

/-- `splitNl2Aux` across a blank-line separator. -/
theorem splitNl2Aux_sep (rest cur : Str) :
    splitNl2Aux ('\n' :: '\n' :: rest) cur =
      cur.reverse :: splitNl2Aux rest [] := rfl

/-- `splitNl2Aux` pushes a non-separator character onto the pending
part. -/
theorem splitNl2Aux_push (c : Char) (rest cur : Str)
    (h : ¬(c = '\n' ∧ rest.head? = some '\n')) :
    splitNl2Aux (c :: rest) cur = splitNl2Aux rest (c :: cur) := by
  conv_lhs => rw [splitNl2Aux.eq_def]
  split
  · rename_i heq
    exact absurd heq (List.cons_ne_nil c rest)
  · rename_i rest2 heq
    rw [List.cons.injEq] at heq
    refine absurd ⟨heq.1, ?_⟩ h
    rw [heq.2]
    rfl
  · rename_i cc rrest hno heq
    rw [List.cons.injEq] at heq
    rw [heq.1, heq.2]

/-- A blank line inside `xs ++ [c]` lies inside `xs` or ends at `c`. -/
theorem nl2_infix_append_singleton {xs : Str} {c : Char}
    (h : nl2 <:+: xs ++ [c]) :
    nl2 <:+: xs ∨ (c = '\n' ∧ xs.getLast? = some '\n') := by
  obtain ⟨s, t, heq⟩ := h
  rcases List.eq_nil_or_concat t with rfl | ⟨t', d, rfl⟩
  · right
    simp only [List.append_nil] at heq
    have heq2 : (s ++ ['\n']) ++ ['\n'] = xs ++ [c] := by
      rw [← heq]
      simp [nl2]
    have hlen : (s ++ ['\n']).length = xs.length := by
      have := congrArg List.length heq2
      simp only [List.length_append, List.length_cons, List.length_nil]
        at this ⊢
      omega
    obtain ⟨h1, h2⟩ := List.append_inj heq2 hlen
    refine ⟨by simpa using h2.symm, ?_⟩
    rw [← h1]
    exact List.getLast?_concat s
  · left
    have heq2 : (s ++ nl2 ++ t') ++ [d] = xs ++ [c] := by
      rw [← heq]
      simp [List.concat_eq_append]
    have hlen : (s ++ nl2 ++ t').length = xs.length := by
      have := congrArg List.length heq2
      simp only [List.length_append, List.length_cons, List.length_nil, nl2]
        at this ⊢
      omega
    obtain ⟨h1, _⟩ := List.append_inj heq2 hlen
    exact ⟨s, t', h1⟩

/-- No part produced by `splitNl2Aux` contains a blank line, provided the
pending part has none and cannot complete one with the next character. -/
theorem splitNl2Aux_nl2_free :
    ∀ (s cur : Str), (¬ nl2 <:+: cur.reverse) →
      (cur.head? = some '\n' → s.head? ≠ some '\n') →
      ∀ p ∈ splitNl2Aux s cur, ¬ nl2 <:+: p
  | [], cur, h1, _ => by
    intro p hp
    simp only [splitNl2Aux, List.mem_singleton] at hp
    subst hp
    exact h1
  | [c], cur, h1, h2 => by
    intro p hp
    rw [splitNl2Aux_push c [] cur (by simp)] at hp
    refine splitNl2Aux_nl2_free [] (c :: cur) ?_ ?_ p hp
    · rw [List.reverse_cons]
      intro hinf
      rcases nl2_infix_append_singleton hinf with h | ⟨hc, hlast⟩
      · exact h1 h
      · rw [List.getLast?_reverse] at hlast
        exact (h2 hlast) (by rw [List.head?_cons, hc])
    · intro _ hr
      cases hr
  | c1 :: c2 :: rest, cur, h1, h2 => by
    by_cases hsep : c1 = '\n' ∧ c2 = '\n'
    · obtain ⟨rfl, rfl⟩ := hsep
      intro p hp
      rw [splitNl2Aux_sep] at hp
      rcases List.mem_cons.mp hp with rfl | hp'
      · exact h1
      · exact splitNl2Aux_nl2_free rest [] (by simp [nl2]) (by simp) p hp'
    · intro p hp
      rw [splitNl2Aux_push c1 (c2 :: rest) cur
        (by simpa using hsep)] at hp
      refine splitNl2Aux_nl2_free (c2 :: rest) (c1 :: cur) ?_ ?_ p hp
      · rw [List.reverse_cons]
        intro hinf
        rcases nl2_infix_append_singleton hinf with h | ⟨hc, hlast⟩
        · exact h1 h
        · rw [List.getLast?_reverse] at hlast
          exact (h2 hlast) (by rw [List.head?_cons, hc])
      · intro hh hr
        apply hsep
        refine ⟨by simpa using hh, by simpa using hr⟩

/-- No part of Python `document.split('\n\n')` contains a blank line. -/
theorem splitNl2_nl2_free (d : Str) : ∀ p ∈ splitNl2 d, ¬ nl2 <:+: p :=
  splitNl2Aux_nl2_free d [] (by simp [nl2]) (by simp)

/-- Invariant of the `_fallback_split` loop: if every pending paragraph
is stripped, non-empty and blank-line free, every emitted segment so far
satisfies the token bound, and the running chunk is empty or stripped,
non-empty and within budget or blank-line free, then every segment of
the final result satisfies the bound. -/
theorem fallback_split_go_ok (estT : Str → Nat) (maxTok : Nat) :
    ∀ (ps segments : List Str) (current : Str),
      (∀ p ∈ ps, goodPara p) →
      (∀ s ∈ segments, segOk estT maxTok s) →
      (current = [] ∨ (strip current = current ∧ current ≠ [] ∧
        (estT current ≤ maxTok ∨ ¬ nl2 <:+: current))) →
      ∀ s ∈ fallback_split_go estT maxTok ps segments current,
        segOk estT maxTok s := by
  intro ps
  induction ps with
  | nil =>
    intro segments current hps hseg hcur s hs
    simp only [fallback_split_go] at hs
    rcases hcur with rfl | ⟨hst, hne, hd⟩
    · simp only [List.isEmpty_nil, not_true_eq_false, if_false] at hs
      exact hseg s hs
    · have hie : current.isEmpty = false := by
        cases current with
        | nil => exact absurd rfl hne
        | cons a t => rfl
      simp only [hie, Bool.false_eq_true, not_false_eq_true, if_true] at hs
      rcases List.mem_append.mp hs with hx | hx
      · exact hseg s hx
      · rw [List.mem_singleton] at hx
        subst hx
        rw [hst]
        rcases hd with h | h
        · exact Or.inl h
        · exact Or.inr ⟨hne, h⟩
  | cons p ps ih =>
    intro segments current hps hseg hcur s hs
    obtain ⟨hpst, hpne, hpfree⟩ : goodPara p := hps p (by simp)
    have hps' : ∀ q ∈ ps, goodPara q := fun q hq => hps q (by simp [hq])
    rcases hcur with hce | ⟨hst, hne, hd⟩
    · subst hce
      have hred : fallback_split_go estT maxTok (p :: ps) segments [] =
          fallback_split_go estT maxTok ps segments p := by
        simp only [fallback_split_go, List.isEmpty_nil, not_true_eq_false,
          if_false]
        split_ifs <;> rfl
      rw [hred] at hs
      exact ih segments p hps' hseg
        (Or.inr ⟨hpst, hpne, Or.inr hpfree⟩) s hs
    · have hie : current.isEmpty = false := by
        cases current with
        | nil => exact absurd rfl hne
        | cons a t => rfl
      simp only [fallback_split_go, hie, Bool.false_eq_true,
        not_false_eq_true, if_true] at hs
      split_ifs at hs with hB
      · exact ih segments (current ++ nl2 ++ p) hps' hseg
          (Or.inr ⟨strip_append_nl2 current p hst hne hpst hpne,
            by simp [nl2], Or.inl hB⟩) s hs
      · refine ih (segments ++ [strip current]) p hps' ?_
          (Or.inr ⟨hpst, hpne, Or.inr hpfree⟩) s hs
        intro x hx
        rcases List.mem_append.mp hx with hx' | hx'
        · exact hseg x hx'
        · rw [List.mem_singleton] at hx'
          subst hx'
          rw [hst]
          rcases hd with h | h
          · exact Or.inl h
          · exact Or.inr ⟨hne, h⟩

/-- Every chunk returned by `_fallback_split` is within the token budget
or a single indivisible (blank-line free, non-empty) paragraph chunk. -/
theorem fallback_split_ok (estT : Str → Nat) (maxTok : Nat) (d : Str) :
    ∀ s ∈ fallback_split estT maxTok d, segOk estT maxTok s := by
  intro s hs
  unfold fallback_split at hs
  refine fallback_split_go_ok estT maxTok _ [] [] ?_ (by simp)
    (Or.inl rfl) s hs
  intro p hp
  rw [List.mem_filter] at hp
  obtain ⟨hp1, hp2⟩ := hp
  rw [List.mem_map] at hp1
  obtain ⟨p0, hp0, rfl⟩ := hp1
  refine ⟨strip_idem p0, ?_, ?_⟩
  · intro h0
    rw [h0] at hp2
    simp at hp2
  · intro hinf
    exact splitNl2_nl2_free d p0 hp0 (hinf.trans (strip_within p0))

/-- Every chunk returned by `_fallback_segment` is within the token
budget or a single indivisible paragraph chunk. -/
theorem fallback_segment_ok (estT : Str → Nat) (maxTok : Nat) (d : Str)
    (mbs : List Str) :
    ∀ s ∈ fallback_segment estT maxTok d mbs, segOk estT maxTok s := by
  intro s hs
  unfold fallback_segment at hs
  rw [List.mem_dedup, List.mem_filter] at hs
  exact fallback_split_ok estT maxTok d s hs.1

/-- Every segment accumulated by the `_match_blocks` loop satisfies the
token bound, provided the recursive segmentation callback does. -/
theorem match_blocks_go_ok (estT : Str → Nat) (maxTok : Nat)
    (seg : Str → List Str → Option (Except PyErr (List Str)))
    (hseg : ∀ d m segs, seg d m = some (.ok segs) →
      ∀ s ∈ segs, segOk estT maxTok s) :
    ∀ (blocks : List (Str × Str)) (mbs acc segs : List Str),
      (∀ s ∈ acc, segOk estT maxTok s) →
      match_blocks_go estT maxTok seg blocks mbs acc = some (.ok segs) →
      ∀ s ∈ segs, segOk estT maxTok s := by
  intro blocks
  induction blocks with
  | nil =>
    intro mbs acc segs hacc h
    simp only [match_blocks_go, Option.some_inj, Except.ok.injEq] at h
    subst h
    exact hacc
  | cons b rest ihb =>
    intro mbs acc segs hacc h
    obtain ⟨title, text⟩ := b
    simp only [match_blocks_go] at h
    split_ifs at h with hmatch hover
    · cases hseg' : seg text
        (mbs.filter (fun b => inStr b (title ++ '\n' :: text))) with
      | none => rw [hseg'] at h; simp at h
      | some r =>
        cases r with
        | error e => rw [hseg'] at h; simp at h
        | ok segs' =>
          rw [hseg'] at h
          refine ihb mbs (acc ++ segs') segs ?_ h
          intro s hs
          rcases List.mem_append.mp hs with h' | h'
          · exact hacc s h'
          · exact hseg text _ segs' hseg' s h'
    · refine ihb mbs (acc ++ [text]) segs ?_ h
      intro s hs
      rcases List.mem_append.mp hs with h' | h'
      · exact hacc s h'
      · rw [List.mem_singleton] at h'
        subst h'
        exact Or.inl (Nat.not_lt.mp hover)
    · exact ihb mbs acc segs hacc h

/-- **C8, counterexample** — the claim's escape condition "a paragraph
with **no headings**" is false on the code: for the document
`"# A\nxxxx"` (a level-1 heading and a following line, no blank lines),
a budget of 5 under a character-count tokenizer, and markdown-it-shaped
tokens for the parse, the level-1 split yields a single block, no deeper
heading level exists, and the paragraph fallback returns the whole
over-budget chunk as-is — a chunk that still contains the heading: the
heading line `"# A"` is a substring, and the same parser finds a
`heading_open` token in it. -/
theorem segment_token_bound_counterexample :
    segment_document (fun s => s.length)
        (fun _ => [⟨"heading_open".data, "h1".data, []⟩,
          ⟨"inline".data, [], "A".data⟩,
          ⟨"heading_close".data, "h1".data, []⟩,
          ⟨"paragraph_open".data, "p".data, []⟩,
          ⟨"inline".data, [], "xxxx".data⟩,
          ⟨"paragraph_close".data, "p".data, []⟩])
        5 1 "# A\nxxxx".data ["xxxx".data] none =
      some (.ok ["# A\nxxxx".data]) ∧
    5 < ("# A\nxxxx".data).length ∧
    "# A".data <:+: "# A\nxxxx".data ∧
    headingLevelsRaw [⟨"heading_open".data, "h1".data, []⟩,
      ⟨"inline".data, [], "A".data⟩,
      ⟨"heading_close".data, "h1".data, []⟩,
      ⟨"paragraph_open".data, "p".data, []⟩,
      ⟨"inline".data, [], "xxxx".data⟩,
      ⟨"paragraph_close".data, "p".data, []⟩] ≠ .ok [] := by
  refine ⟨by decide, by decide, by decide, by decide⟩

/-- **C8, amended** — Segment token bound: for every markdown parser
behaviour, token counter, budget, fuel bound, document, matching-block
list and heading level, every string in a list returned by the segmenter
either has token count at most the budget or is a single indivisible
unit — a non-empty chunk containing no blank-line paragraph separator,
which the paragraph fallback returns as-is (such a chunk can still
contain heading text when the heading-level recursion exhausts deeper
levels and falls back to the paragraph splitter). -/
theorem segment_token_bound (estT : Str → Nat) (parse : Str → List MdToken)
    (maxTok : Nat) (fuel : Nat) :
    ∀ (document : Str) (matching_blocks : List Str)
      (current_level : Option Nat) (segs : List Str),
      segment_document estT parse maxTok fuel document matching_blocks
        current_level = some (.ok segs) →
      ∀ s ∈ segs, segOk estT maxTok s := by
  induction fuel with
  | zero =>
    intro d mbs cl segs h
    simp [segment_document] at h
  | succ n ih =>
    intro d mbs cl segs h
    simp only [segment_document] at h
    by_cases h1 : mbs.isEmpty = true
    · rw [if_pos h1] at h
      simp at h
    · rw [if_neg h1] at h
      by_cases h2 : estT d ≤ maxTok
      · rw [if_pos h2] at h
        simp only [Option.some_inj, Except.ok.injEq] at h
        subst h
        intro s hs
        rw [List.mem_singleton] at hs
        subst hs
        exact Or.inl h2
      · rw [if_neg h2] at h
        cases hh : headingLevels (parse d) with
        | error e => rw [hh] at h; simp at h
        | ok lvls =>
          rw [hh] at h
          dsimp only at h
          by_cases h3 : lvls.isEmpty = true
          · rw [if_pos h3] at h
            simp only [Option.some_inj, Except.ok.injEq] at h
            subst h
            exact fallback_segment_ok estT maxTok d mbs
          · rw [if_neg h3] at h
            set SL := (match cl with
              | some l => if l = 0 then lvls.headD 0 else l
              | none => lvls.headD 0) with hSL
            cases hsb : split_by_heading_level (parse d) SL with
            | error e => rw [hsb] at h; simp at h
            | ok blocks =>
              rw [hsb] at h
              dsimp only at h
              by_cases h4 : blocks.length = 1
              · rw [if_pos h4] at h
                cases hd : (lvls.filter (fun l => SL < l)).head? with
                | some deeper =>
                  rw [hd] at h
                  exact ih d mbs (some deeper) segs h
                | none =>
                  rw [hd] at h
                  simp only [Option.some_inj, Except.ok.injEq] at h
                  subst h
                  exact fallback_segment_ok estT maxTok d mbs
              · rw [if_neg h4] at h
                exact match_blocks_go_ok estT maxTok _
                  (fun d' m' segs' h' => ih d' m' (some SL) segs' h')
                  blocks mbs [] segs (by simp) h

/-- Witness for `segment_token_bound`: a small document within budget is
returned whole, and every returned segment satisfies the bound. -/
theorem segment_token_bound_witness :
    segment_document (fun s => s.length) (fun _ => []) 100 1 "doc".data
        ["doc".data] none = some (.ok ["doc".data]) ∧
    ∀ s ∈ ["doc".data], segOk (fun s => s.length) 100 s :=
  ⟨by decide,
    fun s hs => segment_token_bound (fun s => s.length) (fun _ => []) 100 1
      "doc".data ["doc".data] none ["doc".data] (by decide) s hs⟩

end SiyuanCompanion

